import Mathlib

/-!
Shallow embedding of the streaming chatbot relay (`src/main.rs`) and proofs
about the claims of its specification.

Modelling conventions, stated once here:
  - Rust `f32` trait intensities are modelled as `ℚ` (the thresholds 0.5 and
    0.7 and the intensities used by the claims are exactly representable).
  - `HashMap<String, f32>` is modelled as an association list
    `List (String × ℚ)` with first-match lookup; iteration order is the list
    order (the Rust iteration order of a `HashMap` is arbitrary).
  - `rand::thread_rng()` draws are modelled by an explicit `RngInput` oracle,
    one per processed fragment: `gen_bool` outcomes are `Bool` fields and
    `gen_range(1..n)` / `choose` draws are derived from `Nat` fields; a draw
    from an empty range (`gen_range(1..n)` with `n ≤ 1`) is a panic, modelled
    as `none`.
  - raw transport bytes and `serde_json` decoding are modelled abstractly:
    a chunk is either a transport error or a decode attempt that yields
    `some` envelope (valid JSON of the expected shape) or `none` (discarded).
  - `char::is_whitespace` / the regex `\d` are modelled with the ASCII
    `Char.isWhitespace` / `Char.isDigit`; `to_lowercase` with the ASCII
    `Char.toLower`, mapped characterwise.  All claims are insensitive to the
    non-ASCII cases.
-/

/-! ## Character-list utilities (Rust `split_whitespace`, `join(" ")`) -/

/-- Accumulator worker for `splitWs`: `acc` holds the current word reversed. -/
def swGo : List Char → List Char → List (List Char)
  | acc, [] => if acc.isEmpty then [] else [acc.reverse]
  | acc, c :: cs =>
    if c.isWhitespace then
      if acc.isEmpty then swGo [] cs else acc.reverse :: swGo [] cs
    else swGo (c :: acc) cs

/-- Rust `str::split_whitespace().collect()`: the maximal whitespace-free
nonempty words of a character list, in order. -/
def splitWs (l : List Char) : List (List Char) := swGo [] l

/-- Rust `Vec::join(" ")`: interleave a single space between words. -/
def joinSpace : List (List Char) → List Char
  | [] => []
  | [w] => w
  | w :: w₁ :: ws => w ++ ' ' :: joinSpace (w₁ :: ws)

/-- Rust `Vec::insert(index, x)` (the call sites guarantee `index ≤ length`). -/
def insertAt : Nat → α → List α → List α
  | 0, a, l => a :: l
  | _ + 1, a, [] => [a]
  | n + 1, a, c :: cs => c :: insertAt n a cs

/-- Rust `str::contains(needle)`: substring search. -/
def containsSub (needle : List Char) : List Char → Bool
  | [] => needle.isEmpty
  | c :: t => needle.isPrefixOf (c :: t) || containsSub needle t

/-! ## The marker regex `\[control_\d+\]|<unk>|\[TOOL_CALLS\]|\[TOOL_RESULTS\]` -/

/-- Characters of the literal prefix `[control_` of the first alternative. -/
def ctlChars : List Char := "[control_".toList

/-- Characters of the literal alternative `<unk>`. -/
def unkChars : List Char := "<unk>".toList

/-- Characters of the literal alternative `[TOOL_CALLS]`. -/
def toolCallsChars : List Char := "[TOOL_CALLS]".toList

/-- Characters of the literal alternative `[TOOL_RESULTS]`. -/
def toolResultsChars : List Char := "[TOOL_RESULTS]".toList

/-- Length of a match of `\[control_\d+\]` at the head of `l`, if any:
the literal `[control_`, one or more digits, then `]`. -/
def controlLen (l : List Char) : Option Nat :=
  if ctlChars.isPrefixOf l then
    let rest := l.drop 9
    let ds := rest.takeWhile Char.isDigit
    if ds.isEmpty then none
    else if (rest.drop ds.length).headD ' ' = ']'
    then some (9 + ds.length + 1)
    else none
  else none

/-- Length of a match of the whole alternation at the head of `l`, if any,
trying the alternatives in the regex's order (at most one can match). -/
def markerLen (l : List Char) : Option Nat :=
  match controlLen l with
  | some n => some n
  | none =>
    if unkChars.isPrefixOf l then some 5
    else if toolCallsChars.isPrefixOf l then some 12
    else if toolResultsChars.isPrefixOf l then some 14
    else none

/-- Worker for `removeMarkers`: `skip` counts characters of a matched marker
still to be discarded; in skip mode no new match is attempted, matching
`Regex::replace_all`'s resumption after the end of a match. -/
def rmGo : Nat → List Char → List Char
  | _, [] => []
  | 0, c :: cs =>
    match markerLen (c :: cs) with
    | some n => rmGo (n - 1) cs
    | none => c :: rmGo 0 cs
  | k + 1, _ :: cs => rmGo k cs

/-- `control_regex.replace_all(s, "")`: delete every (leftmost, non-overlapping)
match of the marker alternation.  The alternatives contain no `[` or `<` after
their first character, so matches never overlap. -/
def removeMarkers (l : List Char) : List Char := rmGo 0 l

/-- Does the marker regex match anywhere in `l`? -/
def findsMarker : List Char → Bool
  | [] => false
  | c :: cs => (markerLen (c :: cs)).isSome || findsMarker cs

/-! ## Spec-side whitespace operations (for the Sanitizer contract) -/

/-- Worker for `collapseRuns`; the flag records being inside a whitespace run. -/
def crGo : Bool → List Char → List Char
  | _, [] => []
  | inRun, c :: cs =>
    if c.isWhitespace then
      if inRun then crGo true cs else ' ' :: crGo true cs
    else c :: crGo false cs

/-- Modelled from the spec: replace every maximal run of whitespace by a
single space (the literal reading of "collapses any run of whitespace to a
single space"). -/
def collapseRuns (l : List Char) : List Char := crGo false l

/-- Remove trailing whitespace. -/
def trimTrail (l : List Char) : List Char :=
  (l.reverse.dropWhile Char.isWhitespace).reverse

/-- Remove leading and trailing whitespace. -/
def trimWs (l : List Char) : List Char :=
  trimTrail (l.dropWhile Char.isWhitespace)

/-! ## Data model (structs of `src/main.rs`) -/

/-- `struct Personality` (`main.rs:12-19`); `traits` is the `HashMap` as an
association list, intensities as `ℚ`. -/
structure Personality where
  name : String
  traits : List (String × ℚ)
  ethical_rules : List String
  default_tone : String
  signature_phrases : List String
deriving DecidableEq

/-- `struct Message` (`main.rs:28-32`). -/
structure Message where
  role : String
  content : String
deriving DecidableEq

/-- `struct ChatRequest` (`main.rs:21-26`). -/
structure ChatRequest where
  model : String
  messages : List Message
  stream : Bool
deriving DecidableEq

/-- `struct ChatMessage` (`main.rs:42-46`). -/
structure ChatMessage where
  role : String
  content : String
deriving DecidableEq

/-- `struct ChatStreamResponse` (`main.rs:34-40`): one decoded upstream
envelope. -/
structure ChatStreamResponse where
  model : String
  created_at : String
  message : Option ChatMessage
  done : Bool
deriving DecidableEq

/-- One fragment's random draws: `gen_bool(0.3)` for the insertion coin, the
seeds of `gen_range(1..len)` and `choose`, and the `gen_bool(0.5)` /
`gen_bool(0.4)` trait coins of `enforce_personality`. -/
structure RngInput where
  insertCoin : Bool
  insertPos : Nat
  phrasePick : Nat
  sarcasmCoin : Bool
  curiosityCoin : Bool
deriving DecidableEq

/-- The rng used when the oracle list is exhausted (irrelevant default). -/
def defaultRng : RngInput := ⟨false, 0, 0, false, false⟩

/-- `HashMap::get(k).unwrap_or(&0.0)`: trait lookup defaulting to 0. -/
def traitOf (p : Personality) (k : String) : ℚ :=
  ((p.traits.lookup k).getD 0)

/-! ## Sanitizer and Persona Augmenter (`clean_content`, `enforce_personality`) -/

/-- The source first runs `preserve_regex.replace_all(raw, |caps| caps[0])`
(`main.rs:107-110`), replacing every `\[System:.*?\]` match with its own
matched text — the identity transformation on the string. -/
def preserveSystem (raw : String) : String := raw

/-- Lines 117-125 of `clean_content`: split into words, optionally insert a
signature phrase, re-join with single spaces.  `rng.gen_range(1..words.len())`
panics (`none`) when `words.len() ≤ 1`, since the range `1..len` is then
empty; the source has no guard. -/
def signature_insert (cleaned : List Char) (p : Personality) (rng : RngInput) :
    Option (List Char) :=
  let words := splitWs cleaned
  if !p.signature_phrases.isEmpty && rng.insertCoin then
    if 2 ≤ words.length then
      let index := 1 + rng.insertPos % (words.length - 1)
      let phrase :=
        (p.signature_phrases.getD
          (rng.phrasePick % p.signature_phrases.length) "").toList
      some (joinSpace (insertAt index phrase words))
    else none
  else some (joinSpace words)

/-- `fn clean_content` (`main.rs:106-126`): identity `[System:...]` pass,
marker removal, then word split / optional signature insertion / re-join.
`none` models the `gen_range` panic on fragments with fewer than 2 words. -/
def clean_content (raw : String) (p : Personality) (rng : RngInput) :
    Option String :=
  (signature_insert (removeMarkers (preserveSystem raw).toList) p rng).map
    String.mk

/-- `fn enforce_personality` (`main.rs:128-144`): append the sarcasm suffix
when the `sarcasm` trait exceeds 0.5 and its coin succeeds, then the curiosity
suffix when the `curiosity` trait exceeds 0.7 and its coin succeeds. -/
def enforce_personality (response : String) (p : Personality) (rng : RngInput) :
    String :=
  let m1 :=
    if decide (mkRat 1 2 < traitOf p "sarcasm") && rng.sarcasmCoin
    then response ++ " Oh wow, genius move." else response
  if decide (mkRat 7 10 < traitOf p "curiosity") && rng.curiosityCoin
  then m1 ++ " But wait—have you ever considered the opposite approach?"
  else m1

/-- The persona-augmentation stage of the pipeline (spec §4.2 `augment`): the
signature-insertion step of `clean_content` (which in the source is fused
after marker removal, `main.rs:115-125`) followed by `enforce_personality`. -/
def augment (cleaned : String) (p : Personality) (rng : RngInput) :
    Option String :=
  (signature_insert cleaned.toList p rng).map
    (fun l => enforce_personality (String.mk l) p rng)

/-! ## Upstream stream, producer loop, handler (`chat_stream`, `chat_handler`) -/

/-- One item of `response.bytes_stream()`: a transport error, or bytes whose
`serde_json::from_str::<ChatStreamResponse>` attempt yields `some` envelope or
`none` (silently discarded, `main.rs:176`). -/
inductive Chunk where
  | ok (parsed : Option ChatStreamResponse)
  | err (cause : String)
deriving DecidableEq

/-- The spec's `RelayMessage` union (spec §3).  The source's channel carries
`Result<String, io::Error>`: `Ok` is `dataFragment`, `Err` is `error`; the
spec's `End` variant (`end_`) exists in the type but, as proved below, is
never produced by the source. -/
inductive RelayMessage where
  | dataFragment (s : String)
  | error (cause : String)
  | end_
deriving DecidableEq

/-- Result of running the spawned producer loop: the messages pushed into the
channel in order, whether the task panicked (killing it; the channel then
closes with the messages already sent still delivered), and the unconsumed
rng oracles. -/
structure ProducerOutput where
  msgs : List RelayMessage
  panicked : Bool
  rngRest : List RngInput
deriving DecidableEq

/-- The spawned producer loop of `chat_stream` (`main.rs:169-192`): for each
chunk, a transport error is forwarded as an `error` message and the loop
continues; undecodable bytes and envelopes without a message are skipped;
otherwise the fragment is cleaned, persona-enforced, and sent with a trailing
space unless empty.  A `clean_content` panic kills the task. -/
def chat_stream_loop : List Chunk → Personality → List RngInput → ProducerOutput
  | [], _, rngs => { msgs := [], panicked := false, rngRest := rngs }
  | Chunk.err e :: rest, p, rngs =>
    let o := chat_stream_loop rest p rngs
    { msgs := RelayMessage.error e :: o.msgs, panicked := o.panicked,
      rngRest := o.rngRest }
  | Chunk.ok none :: rest, p, rngs => chat_stream_loop rest p rngs
  | Chunk.ok (some parsed) :: rest, p, rngs =>
    match parsed.message with
    | none => chat_stream_loop rest p rngs
    | some msg =>
      let rng := rngs.headD defaultRng
      match clean_content msg.content p rng with
      | none => { msgs := [], panicked := true, rngRest := rngs.tail }
      | some cleaned =>
        let enforced := enforce_personality cleaned p rng
        if enforced.isEmpty then chat_stream_loop rest p rngs.tail
        else
          let o := chat_stream_loop rest p rngs.tail
          { msgs := RelayMessage.dataFragment (enforced ++ " ") :: o.msgs,
            panicked := o.panicked, rngRest := o.rngRest }

/-- Outcome of `client.post(...).send().await`: a network-level failure, or a
response with a status code and a byte stream. -/
inductive ConnectResult where
  | failure (cause : String)
  | success (status : Nat) (chunks : List Chunk)
deriving DecidableEq

/-- `fn chat_stream` (`main.rs:146-195`): build the `ChatRequest` and post it
(the returned list records the requests actually issued).  On a send failure
the source's `.expect("Failed to call Ollama API")` panics: `none`, no stream.
On success the status code is never inspected and the producer loop is spawned
on the byte stream. -/
def chat_stream (prompt : String) (personality : Personality)
    (conn : ConnectResult) (rngs : List RngInput) :
    List ChatRequest × Option ProducerOutput :=
  let request : ChatRequest :=
    { model := "mistral", messages := [{ role := "user", content := prompt }],
      stream := true }
  match conn with
  | ConnectResult.failure _ => ([request], none)
  | ConnectResult.success _ chunks =>
    ([request], some (chat_stream_loop chunks personality rngs))

/-- The response value built by `chat_handler`: the 403 refusal, or the
streaming 200 response whose body is the producer's output. -/
inductive HandlerResponse where
  | forbidden (body : String)
  | streamed (out : ProducerOutput)
deriving DecidableEq

/-- Status code of the response as built by `Response::builder()`
(`main.rs:71-74` sets 403; `main.rs:95-98` leaves the 200 default). -/
def HandlerResponse.statusCode : HandlerResponse → Nat
  | HandlerResponse.forbidden _ => 403
  | HandlerResponse.streamed _ => 200

/-- Result of one `chat_handler` invocation: the upstream requests issued and
the response (`none` when the handler panicked before producing one). -/
structure HandlerResult where
  sentRequests : List ChatRequest
  response : Option HandlerResponse
deriving DecidableEq

/-- Rust `str::to_lowercase`, modelled characterwise on the ASCII range
(`String.toLower` is the same map, but its position-based recursion does not
reduce in the kernel). -/
def lowerChars (l : List Char) : List Char := l.map Char.toLower

/-- The ethical check of `chat_handler` (`main.rs:68-70`): some rule is a
case-insensitive substring of the prompt. -/
def ethicalViolation (p : Personality) (prompt : String) : Bool :=
  p.ethical_rules.any fun rule =>
    containsSub (lowerChars rule.toList) (lowerChars prompt.toList)

/-- The `{:.0}` percentage rendering of a trait intensity (`main.rs:83`),
modelled on `ℚ` by rounding half up (rounding-mode corner cases are
immaterial to every claim). -/
def fmtPct (v : ℚ) : String := toString (v * 100 + mkRat 1 2).floor

/-- The structured system prompt of `chat_handler` (`main.rs:78-89`). -/
def modified_prompt (p : Personality) (prompt : String) : String :=
  "[System: You are " ++ p.name ++ " - " ++ p.default_tone ++
  ".\nCore Traits: " ++
  String.intercalate ", "
    (p.traits.map fun kv => kv.1 ++ " (" ++ fmtPct kv.2 ++ "%)") ++
  "\nEthical Constraints: " ++ String.intercalate ". " p.ethical_rules ++
  "\nSignature Style: " ++ String.intercalate " " p.signature_phrases ++
  "]\n\nUser: " ++ prompt

/-- `fn chat_handler` (`main.rs:61-99`): default the prompt to `"Hello"`,
reject with 403 before any upstream call when the ethical check trips,
otherwise build the system prompt and call `chat_stream` (whose connect-time
panic propagates: `response = none`). -/
def chat_handler (params : List (String × String)) (personality : Personality)
    (conn : ConnectResult) (rngs : List RngInput) : HandlerResult :=
  let prompt := (params.lookup "prompt").getD "Hello"
  if ethicalViolation personality prompt then
    { sentRequests := [],
      response := some (HandlerResponse.forbidden "🚫 Ethical constraint violated") }
  else
    let sent := chat_stream (modified_prompt personality prompt) personality
      conn rngs
    { sentRequests := sent.1,
      response := sent.2.map HandlerResponse.streamed }

/-! ## Relay Pipe model (`mpsc::channel(20)`, `main.rs:166`) -/

/-- The channel capacity passed to `mpsc::channel` (`main.rs:166`). -/
def relayCapacity : Nat := 20

/-- State of the bounded handoff channel: the in-flight messages in order. -/
structure ChanState where
  buf : List RelayMessage
deriving DecidableEq

/-- Transitions of the bounded channel, per tokio's `mpsc` semantics: a
`send` completes only while the buffer holds fewer than `relayCapacity`
messages (otherwise the producer stays suspended and no transition exists);
`recv` removes the oldest message. -/
inductive ChanStep : ChanState → ChanState → Prop where
  | send (s : ChanState) (m : RelayMessage)
      (h : s.buf.length < relayCapacity) : ChanStep s ⟨s.buf ++ [m]⟩
  | recv (m : RelayMessage) (rest : List RelayMessage) :
      ChanStep ⟨m :: rest⟩ ⟨rest⟩

/-- States reachable from the freshly created (empty) channel. -/
inductive ChanReachable : ChanState → Prop where
  | init : ChanReachable ⟨[]⟩
  | step {s s' : ChanState} (hr : ChanReachable s) (hs : ChanStep s s') :
      ChanReachable s'

/-! ## Auxiliary definitions used by the claims -/

/-- A persona with no traits, no rules and no signature phrases. -/
def trivialPersona : Personality :=
  { name := "Neutral", traits := [], ethical_rules := [],
    default_tone := "plain", signature_phrases := [] }

/-- A persona with one signature phrase (and nothing else). -/
def sigPersona : Personality :=
  { name := "Bot", traits := [], ethical_rules := [],
    default_tone := "dry", signature_phrases := ["Indeed."] }

/-- Rng draws on which the 0.3 insertion coin succeeds. -/
def rngYes : RngInput := ⟨true, 0, 0, false, false⟩

/-- A well-formed upstream envelope chunk carrying the given fragment. -/
def okFragment (content : String) : Chunk :=
  Chunk.ok (some { model := "mistral", created_at := "t",
                   message := some { role := "assistant", content := content },
                   done := false })

/-- A completion envelope: `done = true`, no message. -/
def doneChunk : Chunk :=
  Chunk.ok (some { model := "mistral", created_at := "t", message := none,
                   done := true })

/-- The cleaned-and-enforced outcome for each fragment of a list, consuming
one rng oracle per fragment, exactly as the producer loop does. -/
def pipelineOutputs : List String → Personality → List RngInput →
    List (Option String)
  | [], _, _ => []
  | f :: fs, p, rngs =>
    (clean_content f p (rngs.headD defaultRng)).map
        (fun c => enforce_personality c p (rngs.headD defaultRng)) ::
      pipelineOutputs fs p rngs.tail

/-- Is a relay message an `error`? -/
def isErrorMsg : RelayMessage → Bool
  | RelayMessage.error _ => true
  | _ => false

/-- Is a chunk a transport error? -/
def isErrChunk : Chunk → Bool
  | Chunk.err _ => true
  | _ => false

/-- Sets the `done` flag of a decoded envelope through `f`; other chunks are
unchanged. -/
def mapDone (f : Bool → Bool) : Chunk → Chunk
  | Chunk.ok (some e) => Chunk.ok (some { e with done := f e.done })
  | c => c

/-! ## Lemmas: helpers -/

/-- A nonempty list is not `isEmpty`. -/
lemma isEmpty_false_of_ne {α : Type} {l : List α} (h : l ≠ []) :
    l.isEmpty = false := by
  cases l with
  | nil => exact absurd rfl h
  | cons a t => rfl

/-- `dropWhile` is the identity when every element fails the predicate. -/
lemma dropWhile_eq_self_of_neg {α : Type} {p : α → Bool} {l : List α}
    (h : ∀ c ∈ l, p c = false) : l.dropWhile p = l := by
  cases l with
  | nil => rfl
  | cons a t =>
    exact List.dropWhile_cons_of_neg (by simp [h a (List.mem_cons_self a t)])

/-- The head surviving a `dropWhile` fails the predicate. -/
lemma dropWhile_head_false {α : Type} {p : α → Bool} {c : α} {t : List α} :
    ∀ {l : List α}, l.dropWhile p = c :: t → p c = false := by
  intro l
  induction l with
  | nil => intro h; exact absurd h (by simp)
  | cons a l' ih =>
    intro h
    by_cases hp : p a
    · exact ih (by rwa [List.dropWhile_cons_of_pos hp] at h)
    · rw [List.dropWhile_cons_of_neg hp] at h
      cases h
      simpa using hp

/-! ## Lemmas: `splitWs` -/

/-- `splitWs` of the empty list. -/
lemma splitWs_nil : splitWs [] = [] := rfl

/-- `splitWs` skips a leading whitespace character. -/
lemma splitWs_cons_ws {c : Char} {cs : List Char} (hc : c.isWhitespace = true) :
    splitWs (c :: cs) = splitWs cs := by
  show swGo [] (c :: cs) = swGo [] cs
  simp [swGo, hc]

/-- Behaviour of the `splitWs` worker with a nonempty accumulated word. -/
lemma swGo_acc_spec :
    ∀ (l acc : List Char), acc ≠ [] →
      swGo acc l = (acc.reverse ++ l.takeWhile (fun d => !d.isWhitespace)) ::
        splitWs (l.dropWhile (fun d => !d.isWhitespace)) := by
  intro l
  induction l with
  | nil =>
    intro acc hacc
    simp [swGo, splitWs, isEmpty_false_of_ne hacc]
  | cons c cs ih =>
    intro acc hacc
    by_cases hc : c.isWhitespace
    · have h1 : List.takeWhile (fun d => !d.isWhitespace) (c :: cs) = [] := by
        simp [List.takeWhile_cons, hc]
      have h2 : List.dropWhile (fun d => !d.isWhitespace) (c :: cs) = c :: cs := by
        simp [List.dropWhile_cons, hc]
      have h4 : swGo acc (c :: cs) = acc.reverse :: swGo [] cs := by
        simp [swGo, hc, isEmpty_false_of_ne hacc]
      rw [h4, h1, h2, splitWs_cons_ws hc]
      show acc.reverse :: splitWs cs = (acc.reverse ++ []) :: splitWs cs
      simp
    · have h1 : List.takeWhile (fun d => !d.isWhitespace) (c :: cs)
          = c :: List.takeWhile (fun d => !d.isWhitespace) cs := by
        simp [List.takeWhile_cons, hc]
      have h2 : List.dropWhile (fun d => !d.isWhitespace) (c :: cs)
          = List.dropWhile (fun d => !d.isWhitespace) cs := by
        simp [List.dropWhile_cons, hc]
      have h4 : swGo acc (c :: cs) = swGo (c :: acc) cs := by
        simp [swGo, hc]
      rw [h4, ih (c :: acc) (by simp), h1, h2]
      simp

/-- `splitWs` at a non-whitespace character: the first word is that character
followed by the run of non-whitespace characters after it. -/
lemma splitWs_cons_not_ws {c : Char} {cs : List Char}
    (hc : c.isWhitespace = false) :
    splitWs (c :: cs) = (c :: cs.takeWhile (fun d => !d.isWhitespace)) ::
      splitWs (cs.dropWhile (fun d => !d.isWhitespace)) := by
  have h4 : splitWs (c :: cs) = swGo [c] cs := by
    show swGo [] (c :: cs) = swGo [c] cs
    simp [swGo, hc]
  rw [h4, swGo_acc_spec cs [c] (by simp)]
  simp

/-- Every word produced by the `splitWs` worker (from a whitespace-free
accumulator) is nonempty and whitespace-free. -/
lemma swGo_words :
    ∀ (l acc : List Char), (∀ c ∈ acc, c.isWhitespace = false) →
      ∀ w ∈ swGo acc l, w ≠ [] ∧ ∀ c ∈ w, c.isWhitespace = false := by
  intro l
  induction l with
  | nil =>
    intro acc hacc w hw
    by_cases ha : acc = []
    · subst ha; simp [swGo] at hw
    · rw [show swGo acc [] = [acc.reverse] by
          simp [swGo, isEmpty_false_of_ne ha]] at hw
      rcases List.mem_singleton.mp hw with rfl
      refine ⟨by simpa using ha, ?_⟩
      intro c hc
      exact hacc c (List.mem_reverse.mp hc)
  | cons c cs ih =>
    intro acc hacc w hw
    by_cases hc : c.isWhitespace
    · by_cases ha : acc = []
      · subst ha
        rw [show swGo [] (c :: cs) = swGo [] cs by simp [swGo, hc]] at hw
        exact ih [] (by simp) w hw
      · rw [show swGo acc (c :: cs) = acc.reverse :: swGo [] cs by
            simp [swGo, hc, isEmpty_false_of_ne ha]] at hw
        rcases List.mem_cons.mp hw with rfl | hw'
        · refine ⟨by simpa using ha, ?_⟩
          intro x hx
          exact hacc x (List.mem_reverse.mp hx)
        · exact ih [] (by simp) w hw'
    · rw [show swGo acc (c :: cs) = swGo (c :: acc) cs by simp [swGo, hc]] at hw
      refine ih (c :: acc) ?_ w hw
      intro x hx
      rcases List.mem_cons.mp hx with rfl | hx'
      · simpa using hc
      · exact hacc x hx'

/-- Words of `splitWs` are nonempty. -/
lemma splitWs_word_ne_nil {l : List Char} {w : List Char}
    (hw : w ∈ splitWs l) : w ≠ [] :=
  (swGo_words l [] (by simp) w hw).1

/-- Words of `splitWs` contain no whitespace. -/
lemma splitWs_word_not_ws {l : List Char} {w : List Char}
    (hw : w ∈ splitWs l) : ∀ c ∈ w, c.isWhitespace = false :=
  (swGo_words l [] (by simp) w hw).2

/-- Leading whitespace does not affect `splitWs`. -/
lemma splitWs_dropWhile (l : List Char) :
    splitWs (l.dropWhile Char.isWhitespace) = splitWs l := by
  induction l with
  | nil => rfl
  | cons c cs ih =>
    by_cases hc : c.isWhitespace
    · rw [List.dropWhile_cons_of_pos hc, ih, splitWs_cons_ws hc]
    · rw [List.dropWhile_cons_of_neg hc]

/-! ## Lemmas: `joinSpace`, `trimTrail`, `collapseRuns` -/

/-- `joinSpace` over a cons with nonempty tail. -/
lemma joinSpace_cons (w : List Char) {S : List (List Char)} (hS : S ≠ []) :
    joinSpace (w :: S) = w ++ ' ' :: joinSpace S := by
  cases S with
  | nil => exact absurd rfl hS
  | cons w' S' => rfl

/-- `joinSpace` of a cons with nonempty head word is nonempty. -/
lemma joinSpace_ne_nil {w : List Char} (hw : w ≠ []) (S : List (List Char)) :
    joinSpace (w :: S) ≠ [] := by
  cases S with
  | nil => simpa [joinSpace] using hw
  | cons w' S' => simp [joinSpace]

/-- Splitting `trimTrail` over an append. -/
lemma trimTrail_append (a b : List Char) :
    trimTrail (a ++ b) =
      if trimTrail b = [] then trimTrail a else a ++ trimTrail b := by
  unfold trimTrail
  rw [List.reverse_append, List.dropWhile_append]
  by_cases hb : (b.reverse.dropWhile Char.isWhitespace).isEmpty
  · rw [if_pos hb, if_pos]
    simpa using hb
  · rw [if_neg hb, if_neg]
    · simp
    · simpa using hb

/-- `trimTrail` is the identity on whitespace-free lists. -/
lemma trimTrail_of_not_ws {w : List Char}
    (h : ∀ c ∈ w, c.isWhitespace = false) : trimTrail w = w := by
  unfold trimTrail
  rw [dropWhile_eq_self_of_neg (fun c hc => h c (List.mem_reverse.mp hc))]
  simp

/-- `trimWs` drops a leading whitespace character. -/
lemma trimWs_cons_ws {c : Char} {l : List Char} (hc : c.isWhitespace = true) :
    trimWs (c :: l) = trimWs l := by
  unfold trimWs
  rw [List.dropWhile_cons_of_pos hc]

/-- `trimWs` at a leading non-whitespace character only trims the tail. -/
lemma trimWs_cons_not_ws {c : Char} {l : List Char}
    (hc : c.isWhitespace = false) : trimWs (c :: l) = c :: trimTrail l := by
  unfold trimWs
  rw [List.dropWhile_cons_of_neg (by simp [hc])]
  have h := trimTrail_append [c] l
  have hc1 : trimTrail [c] = [c] := trimTrail_of_not_ws (by simpa using hc)
  by_cases htl : trimTrail l = []
  · rw [show ([c] : List Char) ++ l = c :: l from rfl] at h
    rw [h, if_pos htl, hc1, htl]
  · rw [show ([c] : List Char) ++ l = c :: l from rfl] at h
    rw [h, if_neg htl]
    rfl

/-- The `crGo` worker in in-run mode equals `collapseRuns` after discarding
the leading whitespace run. -/
lemma crGo_true_eq :
    ∀ l : List Char, crGo true l = collapseRuns (l.dropWhile Char.isWhitespace) := by
  intro l
  induction l with
  | nil => rfl
  | cons c cs ih =>
    by_cases hc : c.isWhitespace
    · rw [show crGo true (c :: cs) = crGo true cs by simp [crGo, hc],
        List.dropWhile_cons_of_pos hc, ih]
    · rw [List.dropWhile_cons_of_neg hc]
      show crGo true (c :: cs) = crGo false (c :: cs)
      simp [crGo, hc]

/-- `collapseRuns` at a whitespace character: one space, then the collapse of
the tail after its leading whitespace run. -/
lemma collapseRuns_cons_ws {c : Char} {cs : List Char}
    (hc : c.isWhitespace = true) :
    collapseRuns (c :: cs) = ' ' :: collapseRuns (cs.dropWhile Char.isWhitespace) := by
  show crGo false (c :: cs) = _
  rw [show crGo false (c :: cs) = ' ' :: crGo true cs by simp [crGo, hc],
    crGo_true_eq]

/-- `collapseRuns` at a non-whitespace character keeps it. -/
lemma collapseRuns_cons_not_ws {c : Char} {cs : List Char}
    (hc : c.isWhitespace = false) :
    collapseRuns (c :: cs) = c :: collapseRuns cs := by
  show crGo false (c :: cs) = _
  simp [crGo, hc]
  rfl

/-- `collapseRuns` passes through a whitespace-free prefix. -/
lemma collapseRuns_append_of_not_ws {a : List Char}
    (h : ∀ c ∈ a, c.isWhitespace = false) (b : List Char) :
    collapseRuns (a ++ b) = a ++ collapseRuns b := by
  induction a with
  | nil => rfl
  | cons c t ih =>
    rw [List.cons_append,
      collapseRuns_cons_not_ws (h c (List.mem_cons_self c t)),
      ih (fun x hx => h x (List.mem_cons_of_mem c hx))]
    rfl

/-- `trimTrail` after prepending one space: empty if the rest trims away. -/
lemma trimTrail_cons_space (Y : List Char) :
    trimTrail (' ' :: Y) = if trimTrail Y = [] then [] else ' ' :: trimTrail Y := by
  have h := trimTrail_append [' '] Y
  rw [List.singleton_append] at h
  have h0 : trimTrail [' '] = [] := by decide
  by_cases hy : trimTrail Y = []
  · rw [h, if_pos hy, if_pos hy, h0]
  · rw [h, if_neg hy, if_neg hy]
    rfl

/-- On a list with no leading whitespace, `trimWs` is `trimTrail`. -/
lemma trimWs_eq_trimTrail_of_stable {m : List Char}
    (hm : m.dropWhile Char.isWhitespace = m) : trimWs m = trimTrail m := by
  unfold trimWs
  rw [hm]

/-- The collapse of a list without leading whitespace has no leading
whitespace. -/
lemma collapseRuns_dropWhile_stable (l : List Char) :
    (collapseRuns (l.dropWhile Char.isWhitespace)).dropWhile Char.isWhitespace
      = collapseRuns (l.dropWhile Char.isWhitespace) := by
  cases hdw : l.dropWhile Char.isWhitespace with
  | nil => rfl
  | cons e es =>
    have he : e.isWhitespace = false := dropWhile_head_false hdw
    rw [collapseRuns_cons_not_ws he, List.dropWhile_cons_of_neg (by simp [he])]

/-- Key Sanitizer identity, fueled form: splitting on whitespace and
re-joining with single spaces equals collapsing each whitespace run to one
space and then trimming both ends. -/
lemma trim_collapse_aux :
    ∀ (n : Nat) (l : List Char), l.length ≤ n →
      trimWs (collapseRuns l) = joinSpace (splitWs l) := by
  intro n
  induction n with
  | zero =>
    intro l hl
    rw [List.length_eq_zero.mp (Nat.le_zero.mp hl)]
    rfl
  | succ n ih =>
    intro l hl
    match l with
    | [] => rfl
    | c :: cs =>
      have hcs : cs.length ≤ n := Nat.le_of_succ_le_succ hl
      by_cases hc : c.isWhitespace
      · have hdw : (cs.dropWhile Char.isWhitespace).length ≤ n :=
          le_trans (List.dropWhile_sublist _).length_le hcs
        rw [collapseRuns_cons_ws hc, trimWs_cons_ws (by decide),
          ih _ hdw, splitWs_dropWhile, splitWs_cons_ws hc]
      · have hc' : c.isWhitespace = false := by simpa using hc
        obtain ⟨tw, hT⟩ : ∃ tw, cs.takeWhile (fun d => !d.isWhitespace) = tw :=
          ⟨_, rfl⟩
        obtain ⟨dw, hD⟩ : ∃ dw, cs.dropWhile (fun d => !d.isWhitespace) = dw :=
          ⟨_, rfl⟩
        have htw : ∀ x ∈ tw, x.isWhitespace = false := by
          intro x hx
          rw [← hT] at hx
          simpa using List.mem_takeWhile_imp hx
        have hsplit : tw ++ dw = cs := by
          rw [← hT, ← hD]
          exact List.takeWhile_append_dropWhile _ _
        have hdwlen : dw.length ≤ cs.length := by
          rw [← hD]
          exact (List.dropWhile_sublist _).length_le
        rw [splitWs_cons_not_ws hc', hT, hD, collapseRuns_cons_not_ws hc']
        conv_lhs => rw [← hsplit]
        rw [collapseRuns_append_of_not_ws htw, trimWs_cons_not_ws hc',
          trimTrail_append, trimTrail_of_not_ws htw]
        cases dw with
        | nil =>
          simp [joinSpace, trimTrail, collapseRuns, crGo, splitWs_nil]
        | cons d dw' =>
          have hd : d.isWhitespace = true := by
            have := dropWhile_head_false hD
            simpa using this
          have hlen : (dw'.dropWhile Char.isWhitespace).length ≤ n :=
            le_trans (List.dropWhile_sublist _).length_le
              (le_trans (Nat.le_of_succ_le (by simpa using hdwlen)) hcs)
          have hIH : trimTrail (collapseRuns (dw'.dropWhile Char.isWhitespace))
              = joinSpace (splitWs (dw'.dropWhile Char.isWhitespace)) := by
            rw [← trimWs_eq_trimTrail_of_stable (collapseRuns_dropWhile_stable dw')]
            exact ih _ hlen
          rw [collapseRuns_cons_ws hd, trimTrail_cons_space, hIH,
            splitWs_cons_ws hd, ← splitWs_dropWhile dw']
          cases hS : splitWs (dw'.dropWhile Char.isWhitespace) with
          | nil =>
            simp [joinSpace]
          | cons w S' =>
            have hw : w ≠ [] :=
              splitWs_word_ne_nil (hS ▸ List.mem_cons_self w S')
            have hne : joinSpace (w :: S') ≠ [] := joinSpace_ne_nil hw S'
            rw [if_neg hne, if_neg (by simp)]
            conv_rhs => rw [joinSpace_cons (c :: tw) (by simp)]
            rfl

/-- Key Sanitizer identity: `joinSpace (splitWs l)` collapses interior
whitespace runs to single spaces and trims leading/trailing whitespace. -/
lemma trim_collapse_eq (l : List Char) :
    trimWs (collapseRuns l) = joinSpace (splitWs l) :=
  trim_collapse_aux l.length l le_rfl

/-- `splitWs` is a left inverse of `joinSpace` on lists of nonempty
whitespace-free words. -/
lemma splitWs_joinSpace :
    ∀ W : List (List Char), (∀ w ∈ W, w ≠ []) →
      (∀ w ∈ W, ∀ c ∈ w, c.isWhitespace = false) →
      splitWs (joinSpace W) = W := by
  intro W
  induction W with
  | nil => intro _ _; rfl
  | cons w S ih =>
    intro h1 h2
    obtain ⟨a, w', rfl⟩ :=
      List.exists_cons_of_ne_nil (h1 w (List.mem_cons_self w S))
    have ha : a.isWhitespace = false :=
      h2 _ (List.mem_cons_self _ S) a (List.mem_cons_self a w')
    have hw' : ∀ c ∈ w', (fun d => !d.isWhitespace) c = true := by
      intro c hcm
      simp [h2 _ (List.mem_cons_self _ S) c (List.mem_cons_of_mem a hcm)]
    cases S with
    | nil =>
      show splitWs (a :: w') = [a :: w']
      rw [splitWs_cons_not_ws ha,
        List.takeWhile_eq_self_iff.mpr (by simpa using hw'),
        List.dropWhile_eq_nil_iff.mpr (by simpa using hw'),
        splitWs_nil]
    | cons w₁ S' =>
      rw [joinSpace_cons _ (by simp), List.cons_append, splitWs_cons_not_ws ha,
        List.takeWhile_append_of_pos hw', List.dropWhile_append_of_pos hw',
        List.takeWhile_cons_of_neg (by decide),
        List.dropWhile_cons_of_neg (by decide),
        splitWs_cons_ws (by decide),
        ih (fun x hx => h1 x (List.mem_cons_of_mem _ hx))
          (fun x hx => h2 x (List.mem_cons_of_mem _ hx))]
      simp

/-! ## Lemmas: marker removal and the no-insertion path -/

/-- Single-pass marker removal is the identity when nothing matches. -/
lemma removeMarkers_no_marker :
    ∀ {l : List Char}, findsMarker l = false → removeMarkers l = l := by
  intro l
  induction l with
  | nil => intro _; rfl
  | cons c cs ih =>
    intro h
    have h' : ((markerLen (c :: cs)).isSome || findsMarker cs) = false := h
    rw [Bool.or_eq_false_iff] at h'
    show rmGo 0 (c :: cs) = c :: cs
    cases hml : markerLen (c :: cs) with
    | some n =>
      rw [hml] at h'
      simp at h'
    | none =>
      rw [show rmGo 0 (c :: cs) = (match markerLen (c :: cs) with
          | some n => rmGo (n - 1) cs
          | none => c :: rmGo 0 cs) from rfl, hml]
      exact congrArg (c :: ·) (ih h'.2)

/-- When the persona has no signature phrases or the insertion coin fails,
the insertion step is just the split/re-join of the words. -/
lemma signature_insert_no_insert {cleaned : List Char} {p : Personality}
    {rng : RngInput} (h : p.signature_phrases = [] ∨ rng.insertCoin = false) :
    signature_insert cleaned p rng = some (joinSpace (splitWs cleaned)) := by
  unfold signature_insert
  rcases h with h | h
  · simp [h]
  · simp [h]

/-- `clean_content` on the no-insertion path: marker removal followed by the
whitespace split/re-join. -/
lemma clean_content_no_insert {raw : String} {p : Personality} {rng : RngInput}
    (h : p.signature_phrases = [] ∨ rng.insertCoin = false) :
    clean_content raw p rng
      = some (String.mk (joinSpace (splitWs (removeMarkers raw.toList)))) := by
  unfold clean_content preserveSystem
  rw [signature_insert_no_insert h]
  rfl

/-- Looking up in an all-zero association list yields 0. -/
lemma lookup_getD_zero :
    ∀ (l : List (String × ℚ)), (∀ kv ∈ l, kv.2 = 0) → ∀ k : String,
      ((l.lookup k).getD 0) = 0 := by
  intro l
  induction l with
  | nil => intro _ k; rfl
  | cons a t ih =>
    intro h k
    obtain ⟨k1, v⟩ := a
    show (match k == k1 with
      | true => some v
      | false => t.lookup k).getD (0 : ℚ) = (0 : ℚ)
    cases hkk : (k == k1) with
    | true =>
      simpa using h (k1, v) (List.mem_cons_self _ _)
    | false =>
      exact ih (fun kv hkv => h kv (List.mem_cons_of_mem _ hkv)) k

/-- With all trait intensities at 0 neither suffix is appended. -/
lemma enforce_personality_zero {p : Personality}
    (h : ∀ kv ∈ p.traits, kv.2 = 0) (s : String) (rng : RngInput) :
    enforce_personality s p rng = s := by
  have h1 : traitOf p "sarcasm" = 0 := lookup_getD_zero p.traits h "sarcasm"
  have h2 : traitOf p "curiosity" = 0 := lookup_getD_zero p.traits h "curiosity"
  have d1 : decide (mkRat 1 2 < (0 : ℚ)) = false := by rfl
  have d2 : decide (mkRat 7 10 < (0 : ℚ)) = false := by rfl
  unfold enforce_personality
  rw [h1, h2, d1, d2]
  simp

/-! ## Claim C3 -/

/-- C3: the spec claims the signature-phrase insertion step skips insertion
on fragments with fewer than 2 words so that augmentation is total; the
source has no such guard, and `rng.gen_range(1..words.len())` draws from an
empty range and panics.  Evaluating the code at the failing inputs: with a
persona carrying a signature phrase and a successful 0.3 insertion coin,
`clean_content` panics (`none`) on the one-word fragment "hi" and on the
empty fragment. -/
theorem c3_short_fragment_panics :
    clean_content "hi" sigPersona rngYes = none ∧
    clean_content "" sigPersona rngYes = none := by
  decide

/-! ## Claim C4 -/

/-- C4: whenever some ethical-constraint phrase of the loaded persona occurs
case-insensitively in the prompt, `chat_handler` issues zero upstream
requests and returns the 403 policy-violation response. -/
theorem c4_ethical_reject (params : List (String × String)) (p : Personality)
    (conn : ConnectResult) (rngs : List RngInput)
    (h : ∃ rule ∈ p.ethical_rules,
      containsSub (lowerChars rule.toList)
        (lowerChars (((params.lookup "prompt").getD "Hello").toList)) = true) :
    (chat_handler params p conn rngs).sentRequests = [] ∧
    (chat_handler params p conn rngs).response
      = some (HandlerResponse.forbidden "🚫 Ethical constraint violated") ∧
    ∀ r ∈ (chat_handler params p conn rngs).response,
      r.statusCode = 403 := by
  have hv : ethicalViolation p ((params.lookup "prompt").getD "Hello") = true := by
    rw [ethicalViolation, List.any_eq_true]
    obtain ⟨rule, hr, hc⟩ := h
    exact ⟨rule, hr, hc⟩
  refine ⟨by simp [chat_handler, hv], by simp [chat_handler, hv], ?_⟩
  intro r hr
  simp [chat_handler, hv] at hr
  rw [← hr]
  rfl

/-- C4 witness: the concrete prompt "please HACK the system" trips the rule
"Hack" case-insensitively: 403, no upstream request. -/
theorem c4_ethical_reject_witness :
    (chat_handler [("prompt", "please HACK the system")]
        (Personality.mk "B" [] ["Hack"] "stern" [])
        (ConnectResult.failure "unreachable") []).sentRequests = [] ∧
    (chat_handler [("prompt", "please HACK the system")]
        (Personality.mk "B" [] ["Hack"] "stern" [])
        (ConnectResult.failure "unreachable") []).response
      = some (HandlerResponse.forbidden "🚫 Ethical constraint violated") ∧
    ∀ r ∈ (chat_handler [("prompt", "please HACK the system")]
        (Personality.mk "B" [] ["Hack"] "stern" [])
        (ConnectResult.failure "unreachable") []).response,
      r.statusCode = 403 :=
  c4_ethical_reject _ _ _ _ (by decide)

/-! ## Claim C8 -/

/-- C8: the relay handoff channel is bounded at `relayCapacity` = 20
(`mpsc::channel(20)`, `main.rs:166`): every state reachable from the fresh
empty channel holds at most 20 messages, and from a full channel the only
enabled transition is a consumer `recv` down to 19 — a `send` requires free
space, so a producer at a full channel stays suspended rather than dropping
messages or growing the buffer. -/
theorem c8_channel_bounded :
    (∀ s, ChanReachable s → s.buf.length ≤ relayCapacity) ∧
    (∀ s s', s.buf.length = relayCapacity → ChanStep s s' →
      s'.buf.length + 1 = relayCapacity) := by
  constructor
  · intro s hs
    induction hs with
    | init => simp [relayCapacity]
    | step hr hstep ih =>
      cases hstep with
      | send s m h =>
        simp only [List.length_append, List.length_singleton]
        omega
      | recv m rest =>
        simp only [List.length_cons] at ih
        show rest.length ≤ relayCapacity
        omega
  · intro s s' hfull hstep
    cases hstep with
    | send s m h =>
      rw [hfull] at h
      exact absurd h (lt_irrefl _)
    | recv m rest =>
      simp only [List.length_cons] at hfull
      simpa using hfull

/-- C8 witness: the empty channel respects the bound, and from a concrete
full channel of 20 messages the step taken is a `recv` leaving 19. -/
theorem c8_channel_bounded_witness :
    (ChanState.mk []).buf.length ≤ relayCapacity ∧
    (ChanState.mk (List.replicate 19 (RelayMessage.dataFragment "x"))).buf.length + 1
      = relayCapacity :=
  ⟨c8_channel_bounded.1 ⟨[]⟩ ChanReachable.init,
   c8_channel_bounded.2
     ⟨RelayMessage.dataFragment "x" ::
        List.replicate 19 (RelayMessage.dataFragment "x")⟩
     ⟨List.replicate 19 (RelayMessage.dataFragment "x")⟩
     (by decide)
     (ChanStep.recv _ _)⟩

/-! ## Claim C6 -/

/-- C6 counterexample: on the input " a" the code produces "a"
(`split_whitespace` + `join` trims the ends), while the claim's literal
reading — remove markers, then collapse every whitespace run to a single
space — produces " a". -/
theorem c6_collapse_counterexample :
    clean_content " a" trivialPersona defaultRng = some "a" ∧
    String.mk (collapseRuns (removeMarkers (" a").toList)) = " a" ∧
    ("a" : String) ≠ " a" := by
  decide

/-- C6 (amended): on the non-inserting path (no signature phrases, or a
failed insertion coin) `clean_content` removes the marker matches and then
collapses every interior whitespace run to a single space while trimming
leading and trailing whitespace; the empty string maps to the empty
string. -/
theorem c6_clean_amended :
    (∀ (raw : String) (p : Personality) (rng : RngInput),
      p.signature_phrases = [] ∨ rng.insertCoin = false →
      clean_content raw p rng
        = some (String.mk (trimWs (collapseRuns (removeMarkers raw.toList))))) ∧
    (∀ (p : Personality) (rng : RngInput),
      p.signature_phrases = [] ∨ rng.insertCoin = false →
      clean_content "" p rng = some "") := by
  have key : ∀ (raw : String) (p : Personality) (rng : RngInput),
      p.signature_phrases = [] ∨ rng.insertCoin = false →
      clean_content raw p rng
        = some (String.mk (trimWs (collapseRuns (removeMarkers raw.toList)))) := by
    intro raw p rng h
    rw [clean_content_no_insert h, trim_collapse_eq]
  refine ⟨key, fun p rng h => ?_⟩
  rw [key "" p rng h]
  rfl

/-- C6 witness: a concrete marker-laden input on the trivial persona, and the
empty input. -/
theorem c6_clean_witness :
    clean_content " a  [control_7]b " trivialPersona defaultRng
      = some (String.mk (trimWs (collapseRuns
          (removeMarkers (" a  [control_7]b ").toList)))) ∧
    clean_content "" trivialPersona defaultRng = some "" :=
  ⟨c6_clean_amended.1 " a  [control_7]b " trivialPersona defaultRng (Or.inl rfl),
   c6_clean_amended.2 trivialPersona defaultRng (Or.inl rfl)⟩

/-! ## Claim C7 -/

/-- C7 counterexample: `clean` is not idempotent.  Removing `<unk>` from
"[contr<unk>ol_1]" splices the surrounding text into the fresh marker
"[control_1]", which the single regex pass does not remove; cleaning a second
time removes it, so clean (clean x) ≠ clean x at this input (fixed trivial
persona, fixed random source). -/
theorem c7_idempotence_counterexample :
    clean_content "[contr<unk>ol_1]" trivialPersona defaultRng
      = some "[control_1]" ∧
    clean_content "[control_1]" trivialPersona defaultRng = some "" ∧
    ("" : String) ≠ "[control_1]" := by
  decide

/-- C7 (amended): `clean` is idempotent on every input whose cleaned output
contains no marker match (single-pass removal can splice adjacent text into a
new marker; when the output is marker-free, a second clean returns it
unchanged), on the non-inserting path. -/
theorem c7_idempotence_amended (x y : String) (p : Personality)
    (rng rng' : RngInput)
    (hp : p.signature_phrases = [] ∨
      (rng.insertCoin = false ∧ rng'.insertCoin = false))
    (hx : clean_content x p rng = some y)
    (hy : findsMarker y.toList = false) :
    clean_content y p rng' = some y := by
  have h1 : p.signature_phrases = [] ∨ rng.insertCoin = false := by tauto
  have h2 : p.signature_phrases = [] ∨ rng'.insertCoin = false := by tauto
  rw [clean_content_no_insert h1] at hx
  have hyv : String.mk (joinSpace (splitWs (removeMarkers x.toList))) = y :=
    Option.some.inj hx
  have hlist : y.toList = joinSpace (splitWs (removeMarkers x.toList)) := by
    rw [← hyv]
    rfl
  have hyJ : findsMarker (joinSpace (splitWs (removeMarkers x.toList)))
      = false := by
    rw [← hlist]
    exact hy
  rw [clean_content_no_insert h2, hlist, removeMarkers_no_marker hyJ,
    splitWs_joinSpace _ (fun w hw => splitWs_word_ne_nil hw)
      (fun w hw => splitWs_word_not_ws hw)]
  exact hx

/-- C7 witness: cleaning "hello  [control_7] world" gives "hello world",
whose marker-free cleaning is a fixed point. -/
theorem c7_idempotence_witness :
    clean_content "hello world" trivialPersona defaultRng
      = some "hello world" :=
  c7_idempotence_amended "hello  [control_7] world" "hello world"
    trivialPersona defaultRng defaultRng (Or.inl rfl) (by decide) (by decide)

/-! ## Claim C9 -/

/-- C9 counterexample: even with all trait intensities 0 and no signature
phrases, `augment` is not the identity on every input string: the fused
whitespace split/re-join normalises "a  b" to "a b". -/
theorem c9_identity_counterexample :
    augment "a  b" trivialPersona defaultRng = some "a b" ∧
    ("a b" : String) ≠ "a  b" := by
  decide

/-- C9 (amended): for a persona whose trait intensities are all 0 and whose
signature-phrase list is empty, `augment` is the identity on every
whitespace-normal input (one equal to its own whitespace split/re-join — in
particular on every sanitizer output), for every random source. -/
theorem c9_identity_amended (s : String) (p : Personality) (rng : RngInput)
    (hphr : p.signature_phrases = [])
    (htr : ∀ kv ∈ p.traits, kv.2 = 0)
    (hnorm : String.mk (joinSpace (splitWs s.toList)) = s) :
    augment s p rng = some s := by
  unfold augment
  rw [signature_insert_no_insert (Or.inl hphr)]
  show some (enforce_personality
    (String.mk (joinSpace (splitWs s.toList))) p rng) = some s
  rw [hnorm, enforce_personality_zero htr]

/-- C9 witness: the trivial persona leaves "hello world" unchanged. -/
theorem c9_identity_witness :
    augment "hello world" trivialPersona defaultRng = some "hello world" :=
  c9_identity_amended "hello world" trivialPersona defaultRng rfl
    (by simp [trivialPersona]) (by decide)

/-! ## Lemmas: unfolding the producer loop -/

/-- Producer loop on the empty chunk list. -/
lemma loop_nil (p : Personality) (rngs : List RngInput) :
    chat_stream_loop [] p rngs = ⟨[], false, rngs⟩ := rfl

/-- Producer loop on a transport-error chunk: forward the error, continue. -/
lemma loop_err (e : String) (rest : List Chunk) (p : Personality)
    (rngs : List RngInput) :
    chat_stream_loop (Chunk.err e :: rest) p rngs
      = ⟨RelayMessage.error e :: (chat_stream_loop rest p rngs).msgs,
         (chat_stream_loop rest p rngs).panicked,
         (chat_stream_loop rest p rngs).rngRest⟩ := rfl

/-- Producer loop on an undecodable chunk: silently discard. -/
lemma loop_undecodable (rest : List Chunk) (p : Personality)
    (rngs : List RngInput) :
    chat_stream_loop (Chunk.ok none :: rest) p rngs
      = chat_stream_loop rest p rngs := rfl

/-- Producer loop on an envelope without a message (e.g. a completion
envelope): nothing is emitted and reading continues. -/
lemma loop_no_message {env : ChatStreamResponse} (henv : env.message = none)
    (rest : List Chunk) (p : Personality) (rngs : List RngInput) :
    chat_stream_loop (Chunk.ok (some env) :: rest) p rngs
      = chat_stream_loop rest p rngs := by
  obtain ⟨m, t, msg, d⟩ := env
  cases henv
  rfl

/-- Producer loop on an envelope carrying a message, before the random
draws are resolved. -/
lemma loop_fragment {env : ChatStreamResponse} {msg : ChatMessage}
    {p : Personality} {rngs : List RngInput}
    (henv : env.message = some msg) (rest : List Chunk) :
    chat_stream_loop (Chunk.ok (some env) :: rest) p rngs
      = match clean_content msg.content p (rngs.headD defaultRng) with
        | none => ⟨[], true, rngs.tail⟩
        | some cleaned =>
          if (enforce_personality cleaned p (rngs.headD defaultRng)).isEmpty
          then chat_stream_loop rest p rngs.tail
          else
            ⟨RelayMessage.dataFragment
               (enforce_personality cleaned p (rngs.headD defaultRng) ++ " ") ::
                 (chat_stream_loop rest p rngs.tail).msgs,
             (chat_stream_loop rest p rngs.tail).panicked,
             (chat_stream_loop rest p rngs.tail).rngRest⟩ := by
  obtain ⟨m, t, msg', d⟩ := env
  cases henv
  rfl

/-- Producer loop when `clean_content` panics: the task dies, nothing more is
sent. -/
lemma loop_fragment_panic {env : ChatStreamResponse} {msg : ChatMessage}
    {p : Personality} {rngs : List RngInput}
    (henv : env.message = some msg)
    (hcl : clean_content msg.content p (rngs.headD defaultRng) = none)
    (rest : List Chunk) :
    chat_stream_loop (Chunk.ok (some env) :: rest) p rngs
      = ⟨[], true, rngs.tail⟩ := by
  rw [loop_fragment henv rest, hcl]

/-- Producer loop when the cleaned-and-enforced fragment is empty: skipped. -/
lemma loop_fragment_skip {env : ChatStreamResponse} {msg : ChatMessage}
    {p : Personality} {rngs : List RngInput} {cleaned : String}
    (henv : env.message = some msg)
    (hcl : clean_content msg.content p (rngs.headD defaultRng) = some cleaned)
    (he : (enforce_personality cleaned p (rngs.headD defaultRng)).isEmpty = true)
    (rest : List Chunk) :
    chat_stream_loop (Chunk.ok (some env) :: rest) p rngs
      = chat_stream_loop rest p rngs.tail := by
  rw [loop_fragment henv rest, hcl]
  exact if_pos he

/-- Producer loop when the cleaned-and-enforced fragment is nonempty: it is
sent with a trailing space. -/
lemma loop_fragment_emit {env : ChatStreamResponse} {msg : ChatMessage}
    {p : Personality} {rngs : List RngInput} {cleaned : String}
    (henv : env.message = some msg)
    (hcl : clean_content msg.content p (rngs.headD defaultRng) = some cleaned)
    (he : (enforce_personality cleaned p (rngs.headD defaultRng)).isEmpty = false)
    (rest : List Chunk) :
    chat_stream_loop (Chunk.ok (some env) :: rest) p rngs
      = ⟨RelayMessage.dataFragment
           (enforce_personality cleaned p (rngs.headD defaultRng) ++ " ") ::
             (chat_stream_loop rest p rngs.tail).msgs,
         (chat_stream_loop rest p rngs.tail).panicked,
         (chat_stream_loop rest p rngs.tail).rngRest⟩ := by
  rw [loop_fragment henv rest, hcl]
  exact if_neg (by simpa using he)

/-! ## Claim C1 -/

/-- C1 counterexample: on a connect-time network failure the source's
`.expect("Failed to call Ollama API")` panics.  No relay stream is produced
at all — in particular no stream yielding exactly one `Error` message — and
`chat_handler` returns no HTTP response, so there is no non-success-status
response either. -/
theorem c1_connect_failure_counterexample :
    (chat_stream "Hello" trivialPersona
        (ConnectResult.failure "connection refused") []).2 = none ∧
    ¬ (∃ out, (chat_stream "Hello" trivialPersona
        (ConnectResult.failure "connection refused") []).2 = some out ∧
        ∃ c, out.msgs = [RelayMessage.error c]) ∧
    (chat_handler [] trivialPersona
        (ConnectResult.failure "connection refused") []).response = none := by
  refine ⟨rfl, ?_, by decide⟩
  rintro ⟨out, hout, -⟩
  rw [show (chat_stream "Hello" trivialPersona
      (ConnectResult.failure "connection refused") []).2 = none from rfl] at hout
  simp at hout

/-- C1 (amended): on a connect-time network error the producer panics, so no
relay stream (and no response) is produced; a non-success upstream status is
never detected — the stream produced under any status code equals the stream
produced under any other, so fragments decoded from an error body are relayed
exactly as on success. -/
theorem c1_connect_failure_amended :
    (∀ (prompt : String) (p : Personality) (cause : String)
        (rngs : List RngInput),
      (chat_stream prompt p (ConnectResult.failure cause) rngs).2 = none) ∧
    (∀ (prompt : String) (p : Personality) (st st' : Nat)
        (chunks : List Chunk) (rngs : List RngInput),
      (chat_stream prompt p (ConnectResult.success st chunks) rngs).2
        = (chat_stream prompt p (ConnectResult.success st' chunks) rngs).2) :=
  ⟨fun _ _ _ _ => rfl, fun _ _ _ _ _ _ => rfl⟩

/-! ## Claim C2 -/

/-- C2 counterexample: the producer loop does not stop after a hard transport
error.  On the chunk sequence [transport error, readable fragment "B"] it
relays the `Error` and then still emits `DataFragment "B "`, contradicting
"no further fragments are emitted after an error". -/
theorem c2_midstream_error_counterexample :
    (chat_stream_loop [Chunk.err "connection reset", okFragment "B"]
        trivialPersona []).msgs
      = [RelayMessage.error "connection reset",
         RelayMessage.dataFragment "B "] ∧
    (chat_stream_loop [Chunk.err "connection reset", okFragment "B"]
        trivialPersona []).msgs ≠ [RelayMessage.error "connection reset"] := by
  decide

/-- C2 (amended): a mid-stream transport error yields an `Error` message
carrying the cause, but it is not terminal: the loop continues with the
remaining chunks exactly as if they were the whole stream, and (absent the
insertion panic) the relayed messages contain one `Error` per failed chunk —
later readable chunks still produce fragments, and the stream ends only when
the chunk sequence is exhausted. -/
theorem c2_midstream_error_amended :
    (∀ (e : String) (rest : List Chunk) (p : Personality)
        (rngs : List RngInput),
      (chat_stream_loop (Chunk.err e :: rest) p rngs).msgs
        = RelayMessage.error e :: (chat_stream_loop rest p rngs).msgs) ∧
    (∀ (chunks : List Chunk) (p : Personality) (rngs : List RngInput),
      (chat_stream_loop chunks p rngs).panicked = false →
      (chat_stream_loop chunks p rngs).msgs.countP isErrorMsg
        = chunks.countP isErrChunk) := by
  constructor
  · intro e rest p rngs
    rfl
  · intro chunks p rngs h
    induction chunks generalizing rngs with
    | nil => rfl
    | cons c rest ih =>
      cases c with
      | err e =>
        have h' : (chat_stream_loop rest p rngs).panicked = false := h
        rw [show (chat_stream_loop (Chunk.err e :: rest) p rngs).msgs
            = RelayMessage.error e :: (chat_stream_loop rest p rngs).msgs
            from rfl, List.countP_cons, List.countP_cons, ih rngs h']
        simp [isErrorMsg, isErrChunk]
      | ok parsed =>
        cases parsed with
        | none =>
          have h' : (chat_stream_loop rest p rngs).panicked = false := h
          rw [loop_undecodable, List.countP_cons, ih rngs h']
          simp [isErrChunk]
        | some env =>
          cases henv : env.message with
          | none =>
            rw [loop_no_message henv] at h ⊢
            rw [List.countP_cons, ih rngs h]
            simp [isErrChunk]
          | some msg =>
            cases hcl : clean_content msg.content p (rngs.headD defaultRng) with
            | none =>
              rw [loop_fragment_panic henv hcl] at h
              simp at h
            | some cleaned =>
              by_cases he : (enforce_personality cleaned p
                  (rngs.headD defaultRng)).isEmpty
              · rw [loop_fragment_skip henv hcl he] at h ⊢
                rw [List.countP_cons, ih rngs.tail h]
                simp [isErrChunk]
              · have he' : (enforce_personality cleaned p
                    (rngs.headD defaultRng)).isEmpty = false := by
                  simpa using he
                rw [loop_fragment_emit henv hcl he'] at h ⊢
                rw [show (⟨RelayMessage.dataFragment
                      (enforce_personality cleaned p (rngs.headD defaultRng)
                        ++ " ") ::
                        (chat_stream_loop rest p rngs.tail).msgs,
                      (chat_stream_loop rest p rngs.tail).panicked,
                      (chat_stream_loop rest p rngs.tail).rngRest⟩
                      : ProducerOutput).msgs
                    = RelayMessage.dataFragment
                        (enforce_personality cleaned p (rngs.headD defaultRng)
                          ++ " ") ::
                        (chat_stream_loop rest p rngs.tail).msgs from rfl,
                  List.countP_cons, List.countP_cons, ih rngs.tail h]
                simp [isErrorMsg, isErrChunk]

/-- C2 witness: on the concrete stream [error, fragment "B"] nothing panics,
the error per the unfolding lemma is first, and the error counts match. -/
theorem c2_midstream_error_witness :
    (chat_stream_loop (Chunk.err "connection reset" :: [okFragment "B"])
        trivialPersona []).msgs
      = RelayMessage.error "connection reset" ::
          (chat_stream_loop [okFragment "B"] trivialPersona []).msgs ∧
    (chat_stream_loop [Chunk.err "connection reset", okFragment "B"]
        trivialPersona []).msgs.countP isErrorMsg
      = ([Chunk.err "connection reset", okFragment "B"]).countP isErrChunk :=
  ⟨c2_midstream_error_amended.1 "connection reset" [okFragment "B"]
      trivialPersona [],
   c2_midstream_error_amended.2 [Chunk.err "connection reset", okFragment "B"]
      trivialPersona [] (by decide)⟩

/-! ## Claim C5 -/

/-- C5 counterexample: order is preserved, but not every well-formed fragment
reaches the client — a fragment whose cleaned text is empty (here the
whitespace-only fragment " ") is skipped by the `!enforced.is_empty()` check,
so the body is "A C " rather than one entry per decoded fragment. -/
theorem c5_order_counterexample :
    (chat_stream_loop [okFragment "A", okFragment " ", okFragment "C",
        doneChunk] trivialPersona []).msgs
      = [RelayMessage.dataFragment "A ", RelayMessage.dataFragment "C "] ∧
    (chat_stream_loop [okFragment "A", okFragment " ", okFragment "C",
        doneChunk] trivialPersona []).msgs
      ≠ [RelayMessage.dataFragment "A ", RelayMessage.dataFragment " ",
         RelayMessage.dataFragment "C "] := by
  decide

/-- C5 (amended): for every fragment list followed by a completion envelope,
when no fragment makes the insertion step panic, the relayed body is exactly
the nonempty cleaned/augmented fragments, each with one trailing space, in
upstream order; fragments whose cleaned/augmented text is empty are skipped
(in addition to malformed envelopes). -/
theorem c5_order_amended (frs : List String) (p : Personality)
    (rngs : List RngInput)
    (h : ∀ o ∈ pipelineOutputs frs p rngs, o.isSome = true) :
    (chat_stream_loop (frs.map okFragment ++ [doneChunk]) p rngs).msgs
      = (((pipelineOutputs frs p rngs).filterMap id).filter
          (fun s => !s.isEmpty)).map
          (fun s => RelayMessage.dataFragment (s ++ " ")) := by
  induction frs generalizing rngs with
  | nil =>
    show (chat_stream_loop
      (Chunk.ok (some ⟨"mistral", "t", none, true⟩) :: []) p rngs).msgs = []
    rw [loop_no_message rfl]
    rfl
  | cons f fs ih =>
    have hhead : ((clean_content f p (rngs.headD defaultRng)).map
        (fun c => enforce_personality c p (rngs.headD defaultRng))).isSome
          = true :=
      h _ (List.mem_cons_self _ _)
    have htail : ∀ o ∈ pipelineOutputs fs p rngs.tail, o.isSome = true :=
      fun o ho => h o (List.mem_cons_of_mem _ ho)
    cases hcl : clean_content f p (rngs.headD defaultRng) with
    | none =>
      rw [hcl] at hhead
      simp at hhead
    | some cleaned =>
      have hpipe : pipelineOutputs (f :: fs) p rngs
          = some (enforce_personality cleaned p (rngs.headD defaultRng))
            :: pipelineOutputs fs p rngs.tail := by
        show ((clean_content f p (rngs.headD defaultRng)).map
          (fun c => enforce_personality c p (rngs.headD defaultRng)))
            :: pipelineOutputs fs p rngs.tail = _
        rw [hcl]
        rfl
      have hlist : (f :: fs).map okFragment ++ [doneChunk]
          = Chunk.ok (some ⟨"mistral", "t", some ⟨"assistant", f⟩, false⟩)
            :: (fs.map okFragment ++ [doneChunk]) := rfl
      rw [hpipe, hlist]
      by_cases he : (enforce_personality cleaned p
          (rngs.headD defaultRng)).isEmpty
      · rw [loop_fragment_skip rfl hcl he, ih rngs.tail htail]
        have he2 : (enforce_personality cleaned p
            (rngs.head?.getD defaultRng)).isEmpty = true := by
          rw [← List.headD_eq_head?_getD]
          exact he
        simp [he2]
      · have he' : (enforce_personality cleaned p
            (rngs.headD defaultRng)).isEmpty = false := by simpa using he
        rw [loop_fragment_emit rfl hcl he']
        show RelayMessage.dataFragment
            (enforce_personality cleaned p (rngs.headD defaultRng) ++ " ") ::
            (chat_stream_loop (fs.map okFragment ++ [doneChunk]) p
              rngs.tail).msgs = _
        rw [ih rngs.tail htail]
        have he2 : (enforce_personality cleaned p
            (rngs.head?.getD defaultRng)).isEmpty = false := by
          rw [← List.headD_eq_head?_getD]
          exact he'
        simp [he2]

/-- C5 witness: the fragments "A", "B", "C" followed by a completion envelope
produce exactly "A ", "B ", "C " in that order. -/
theorem c5_order_witness :
    (∀ o ∈ pipelineOutputs ["A", "B", "C"] trivialPersona [],
      o.isSome = true) ∧
    (chat_stream_loop (["A", "B", "C"].map okFragment ++ [doneChunk])
        trivialPersona []).msgs
      = [RelayMessage.dataFragment "A ", RelayMessage.dataFragment "B ",
         RelayMessage.dataFragment "C "] :=
  ⟨by decide, by
    rw [c5_order_amended ["A", "B", "C"] trivialPersona [] (by decide)]
    decide⟩

/-! ## Claim C10 -/

/-- C10: the producer never reacts to the envelope's completion flag and
never emits an explicit `End` message.  (i) Rewriting every envelope's `done`
flag through an arbitrary function leaves the producer output unchanged;
(ii) no relayed message is the spec's `End` variant; (iii) absent a panic the
producer keeps reading past every chunk: the output on `xs ++ ys` is the
output on `xs` followed by the output on `ys`, so the consumer sees the
stream end only because the chunk sequence is exhausted and the sender is
dropped, never through an explicit terminator. -/
theorem c10_ignores_done :
    (∀ (f : Bool → Bool) (chunks : List Chunk) (p : Personality)
        (rngs : List RngInput),
      chat_stream_loop (chunks.map (mapDone f)) p rngs
        = chat_stream_loop chunks p rngs) ∧
    (∀ (chunks : List Chunk) (p : Personality) (rngs : List RngInput),
      RelayMessage.end_ ∉ (chat_stream_loop chunks p rngs).msgs) ∧
    (∀ (xs ys : List Chunk) (p : Personality) (rngs : List RngInput),
      (chat_stream_loop xs p rngs).panicked = false →
      (chat_stream_loop (xs ++ ys) p rngs).msgs
        = (chat_stream_loop xs p rngs).msgs
          ++ (chat_stream_loop ys p
                (chat_stream_loop xs p rngs).rngRest).msgs) := by
  refine ⟨?_, ?_, ?_⟩
  · intro f chunks p
    induction chunks with
    | nil => intro rngs; rfl
    | cons c rest ih =>
      intro rngs
      cases c with
      | err e =>
        show chat_stream_loop (Chunk.err e :: rest.map (mapDone f)) p rngs = _
        rw [loop_err, loop_err, ih rngs]
      | ok parsed =>
        cases parsed with
        | none =>
          show chat_stream_loop (Chunk.ok none :: rest.map (mapDone f)) p rngs
            = _
          rw [loop_undecodable, loop_undecodable, ih rngs]
        | some env =>
          obtain ⟨m, t, msg, d⟩ := env
          show chat_stream_loop
            (Chunk.ok (some ⟨m, t, msg, f d⟩) :: rest.map (mapDone f)) p rngs
              = chat_stream_loop (Chunk.ok (some ⟨m, t, msg, d⟩) :: rest) p rngs
          cases msg with
          | none => rw [loop_no_message rfl, loop_no_message rfl, ih rngs]
          | some msg' =>
            rw [@loop_fragment ⟨m, t, some msg', f d⟩ msg' p rngs rfl
                (rest.map (mapDone f)),
              @loop_fragment ⟨m, t, some msg', d⟩ msg' p rngs rfl rest,
              ih rngs.tail]
  · intro chunks p
    induction chunks with
    | nil => intro rngs; simp [loop_nil]
    | cons c rest ih =>
      intro rngs
      cases c with
      | err e =>
        show RelayMessage.end_ ∉
          RelayMessage.error e :: (chat_stream_loop rest p rngs).msgs
        intro hmem
        rcases List.mem_cons.mp hmem with h | h
        · exact RelayMessage.noConfusion h
        · exact ih rngs h
      | ok parsed =>
        cases parsed with
        | none =>
          show RelayMessage.end_ ∉ (chat_stream_loop rest p rngs).msgs
          exact ih rngs
        | some env =>
          cases henv : env.message with
          | none =>
            rw [loop_no_message henv]
            exact ih rngs
          | some msg =>
            cases hcl : clean_content msg.content p (rngs.headD defaultRng) with
            | none =>
              rw [loop_fragment_panic henv hcl]
              simp
            | some cleaned =>
              by_cases he : (enforce_personality cleaned p
                  (rngs.headD defaultRng)).isEmpty
              · rw [loop_fragment_skip henv hcl he]
                exact ih rngs.tail
              · have he' : (enforce_personality cleaned p
                    (rngs.headD defaultRng)).isEmpty = false := by simpa using he
                rw [loop_fragment_emit henv hcl he']
                show RelayMessage.end_ ∉
                  RelayMessage.dataFragment
                    (enforce_personality cleaned p (rngs.headD defaultRng)
                      ++ " ") ::
                    (chat_stream_loop rest p rngs.tail).msgs
                intro hmem
                rcases List.mem_cons.mp hmem with h | h
                · exact RelayMessage.noConfusion h
                · exact ih rngs.tail h
  · intro xs ys p
    induction xs with
    | nil => intro rngs _; rfl
    | cons c rest ih =>
      intro rngs h
      cases c with
      | err e =>
        have h' : (chat_stream_loop rest p rngs).panicked = false := h
        rw [List.cons_append]
        show RelayMessage.error e ::
            (chat_stream_loop (rest ++ ys) p rngs).msgs = _
        rw [ih rngs h']
        rfl
      | ok parsed =>
        cases parsed with
        | none =>
          have h' : (chat_stream_loop rest p rngs).panicked = false := h
          rw [List.cons_append]
          show (chat_stream_loop (rest ++ ys) p rngs).msgs = _
          exact ih rngs h'
        | some env =>
          cases henv : env.message with
          | none =>
            have h' : (chat_stream_loop rest p rngs).panicked = false := by
              rw [loop_no_message henv] at h
              exact h
            rw [List.cons_append, loop_no_message henv, loop_no_message henv,
              ih rngs h']
          | some msg =>
            cases hcl : clean_content msg.content p (rngs.headD defaultRng) with
            | none =>
              rw [loop_fragment_panic henv hcl] at h
              simp at h
            | some cleaned =>
              by_cases he : (enforce_personality cleaned p
                  (rngs.headD defaultRng)).isEmpty
              · have h' : (chat_stream_loop rest p rngs.tail).panicked
                    = false := by
                  rw [loop_fragment_skip henv hcl he] at h
                  exact h
                rw [List.cons_append, loop_fragment_skip henv hcl he,
                  loop_fragment_skip henv hcl he, ih rngs.tail h']
              · have he' : (enforce_personality cleaned p
                    (rngs.headD defaultRng)).isEmpty = false := by simpa using he
                have h' : (chat_stream_loop rest p rngs.tail).panicked
                    = false := by
                  rw [loop_fragment_emit henv hcl he'] at h
                  exact h
                rw [List.cons_append, loop_fragment_emit henv hcl he',
                  loop_fragment_emit henv hcl he']
                show RelayMessage.dataFragment
                    (enforce_personality cleaned p (rngs.headD defaultRng)
                      ++ " ") ::
                    (chat_stream_loop (rest ++ ys) p rngs.tail).msgs = _
                rw [ih rngs.tail h']
                rfl

/-- C10 witness: concretely, flipping the `done` flag of a done-marked
fragment envelope does not change the output, and the producer continues
reading after the completion envelope: the fragment "B" placed after
`doneChunk` is still relayed. -/
theorem c10_ignores_done_witness :
    chat_stream_loop ([doneChunk].map (mapDone not)) trivialPersona []
      = chat_stream_loop [doneChunk] trivialPersona [] ∧
    RelayMessage.end_ ∉
      (chat_stream_loop [okFragment "A", doneChunk] trivialPersona []).msgs ∧
    (chat_stream_loop ([doneChunk] ++ [okFragment "B"]) trivialPersona []).msgs
      = (chat_stream_loop [doneChunk] trivialPersona []).msgs
        ++ (chat_stream_loop [okFragment "B"] trivialPersona
              (chat_stream_loop [doneChunk] trivialPersona []).rngRest).msgs :=
  ⟨c10_ignores_done.1 not [doneChunk] trivialPersona [],
   c10_ignores_done.2.1 [okFragment "A", doneChunk] trivialPersona [],
   c10_ignores_done.2.2 [doneChunk] [okFragment "B"] trivialPersona []
     (by decide)⟩
